import Mathlib

/-!
# Verification of the tic-tac-toe game core (`src/Game.tsx`)

Shallow embedding of the game-state core of the React tic-tac-toe
component: the win detector (`checkDirection`, `calculateWinner`), the
configuration validation (`validationErrors` / `applyConfiguration`), and
the stateful handlers (`handleClick`, `jumpTo`, `resetGame`,
`handleModeChange`, the computer-move effect).  The component state
`(rows, cols, winSeq, mode, history, stepNumber, isPlayerXTurn)` is
modelled by the structure `GameState`; cells are `Option Mark` with
`none` standing for the JS `null`.

Operations are embedded as total functions on `GameState`; the
transition relation `Step` exposes exactly the operations the UI can
trigger, with the guards of the corresponding call sites:
* `handleClick` is invoked only from the rendered board, whose square
  indices range over `[0, rows*cols)`;
* `jumpTo` is invoked only from the move list, whose indices range over
  `[0, history.length)`;
* `applyConfiguration` only resets when the validation-error list is
  empty (the Apply button is disabled otherwise), so a completed
  configuration application always carries valid values;
* the computer-move timeout body runs only when the effect condition
  (single-player, O to move, no winner, board not full) holds.
-/

/-- A player mark: the JS strings `'X'` and `'O'`. -/
inductive Mark where
  | X : Mark
  | O : Mark
deriving DecidableEq, Repr

/-- A board cell: `none` is the JS `null` (empty cell). -/
abbrev Cell := Option Mark

/-- Game mode: the `"single" | "multi"` union type. -/
inductive GameMode where
  | single : GameMode
  | multi : GameMode
deriving DecidableEq, Repr

/-- `checkDirection` from `src/Game.tsx`: walks `winCondition` offsets from
`(row, col)` along `(dRow, dCol)`; fails as soon as a probed cell is out of
bounds or does not hold `player`.  Positions are `Int` because `dCol = -1`
makes intermediate columns negative in the source. -/
def checkDirection (squares : List Cell) (row col dRow dCol : Int)
    (winCondition numRows numCols : Nat) (player : Mark) : Bool :=
  (List.range winCondition).all fun offset =>
    let currentRow := row + (offset : Int) * dRow
    let currentCol := col + (offset : Int) * dCol
    (decide (0 ≤ currentRow) && decide (currentRow < (numRows : Int)) &&
     decide (0 ≤ currentCol) && decide (currentCol < (numCols : Int))) &&
    decide (squares.getD (currentRow * (numCols : Int) + currentCol).toNat none = some player)

/-- `calculateWinner` from `src/Game.tsx`: row-major scan over all cells;
for the first occupied origin cell from which one of the four direction
probes (horizontal, vertical, diag-down-right, diag-down-left) succeeds,
returns that cell's mark; otherwise `none`. -/
def calculateWinner (squares : List Cell) (numRows numCols winCondition : Nat) :
    Option Mark :=
  (List.range numRows).findSome? fun row =>
    (List.range numCols).findSome? fun col =>
      match squares.getD (row * numCols + col) none with
      | none => none
      | some player =>
          if checkDirection squares row col 0 1 winCondition numRows numCols player
              || checkDirection squares row col 1 0 winCondition numRows numCols player
              || checkDirection squares row col 1 1 winCondition numRows numCols player
              || checkDirection squares row col 1 (-1) winCondition numRows numCols player
          then some player else none

/-- The `validationErrors` list computed in `src/Game.tsx` from the
configuration fields, in source order. -/
def validationErrors (rows cols winSeq : Nat) : List String :=
  (if rows < 3 then ["Rows must be at least 3."] else []) ++
  (if cols < 3 then ["Columns must be at least 3."] else []) ++
  (if winSeq < 3 then ["Winning sequence must be at least 3."] else []) ++
  (if winSeq > rows || winSeq > cols then
    ["Winning sequence cannot exceed board dimensions."] else [])

/-- The state of the `Game` component: configuration fields, mode, and the
game state proper (`history`, `stepNumber`, `isPlayerXTurn`). -/
structure GameState where
  rows : Nat
  cols : Nat
  winSeq : Nat
  mode : GameMode
  history : List (List Cell)
  stepNumber : Nat
  isPlayerXTurn : Bool
deriving DecidableEq, Repr

namespace GameState

/-- `const current = history[stepNumber]`. -/
def current (s : GameState) : List Cell :=
  s.history.getD s.stepNumber []

/-- `const currentPlayer = isPlayerXTurn ? 'X' : 'O'`. -/
def currentPlayer (s : GameState) : Mark :=
  if s.isPlayerXTurn then Mark.X else Mark.O

/-- `const winner = calculateWinner(current.squares, rows, cols, winSeq)`. -/
def winnerOf (s : GameState) : Option Mark :=
  calculateWinner s.current s.rows s.cols s.winSeq

/-- `const isBoardFull = current.squares.every(cell => cell !== null)`. -/
def isBoardFull (s : GameState) : Bool :=
  s.current.all fun c => c.isSome

/-- `resetGame`: fresh empty board from the current configuration fields,
step 0, X to move. -/
def resetGame (s : GameState) : GameState :=
  { s with history := [List.replicate (s.rows * s.cols) (none : Cell)],
           stepNumber := 0,
           isPlayerXTurn := true }

/-- `applyConfiguration`: resets the game iff the validation-error list for
the current fields is empty; otherwise does nothing. -/
def applyConfiguration (s : GameState) : GameState :=
  if validationErrors s.rows s.cols s.winSeq = [] then s.resetGame else s

/-- `handleModeChange`: sets the mode, then resets the game. -/
def handleModeChange (s : GameState) (m : GameMode) : GameState :=
  resetGame { s with mode := m }

/-- `handleClick(i)`: ignored when it is the computer's turn in
single-player mode, when a winner exists, or when the target cell is
occupied; otherwise writes the current player's mark at `i`, truncates the
history after `stepNumber` and appends the new board, and updates the turn.
The only call site (the board) passes `i < rows * cols`, and on such
in-range indices `List.set` agrees with the JS element assignment. -/
def handleClick (s : GameState) (i : Nat) : GameState :=
  if s.mode = GameMode.single ∧ s.isPlayerXTurn = false then s
  else if s.winnerOf.isSome ∨ (s.current.getD i none).isSome then s
  else
    let squares := s.current.set i (some s.currentPlayer)
    let newHistory := s.history.take (s.stepNumber + 1) ++ [squares]
    { s with history := newHistory,
             stepNumber := newHistory.length - 1,
             isPlayerXTurn := if s.mode = GameMode.single then false else !s.isPlayerXTurn }

/-- `jumpTo(step)`: sets `stepNumber` and derives the turn from the parity
of `step`.  The source performs no bounds check. -/
def jumpTo (s : GameState) (step : Nat) : GameState :=
  { s with stepNumber := step, isPlayerXTurn := decide (step % 2 = 0) }

/-- The `emptySquares` computation of the computer-move effect: indices of
the `null` cells of a board, in order. -/
def emptyIndices (l : List Cell) : List Nat :=
  (List.range l.length).filter fun i => (l.getD i none).isNone

/-- The body of the computer-move `setTimeout`: reads the latest history
entry, plays `'O'` on the empty cell chosen by the random draw `r` (if any
empty cell exists), appends to the end of the history, increments
`stepNumber` and hands the turn back to X. -/
def computerMove (s : GameState) (r : Nat) : GameState :=
  let latest := s.history.getLast?.getD []
  let empty := emptyIndices latest
  let newHistory :=
    if empty.isEmpty then s.history
    else s.history ++ [latest.set (empty.getD r 0) (some Mark.O)]
  { s with history := newHistory,
           stepNumber := s.stepNumber + 1,
           isPlayerXTurn := true }

/-- The condition of the computer-move `useEffect`: single-player mode, O to
move, no winner, board not full. -/
def TimerEnabled (s : GameState) : Prop :=
  s.mode = GameMode.single ∧ s.isPlayerXTurn = false ∧
    s.winnerOf = none ∧ s.isBoardFull = false

instance (s : GameState) : Decidable s.TimerEnabled := by
  unfold TimerEnabled; infer_instance

end GameState

/-- Initial component state for props `(numRows, numCols, winCondition)`:
multiplayer, a single empty board, step 0, X to move. -/
def initState (r c w : Nat) : GameState :=
  { rows := r, cols := c, winSeq := w, mode := GameMode.multi,
    history := [List.replicate (r * c) (none : Cell)],
    stepNumber := 0, isPlayerXTurn := true }

/-- One UI-triggered transition of the component.  Guards record the
constraints of the corresponding call sites (see the module docstring). -/
inductive Step : GameState → GameState → Prop where
  | click (s : GameState) (i : Nat) (h : i < s.rows * s.cols) :
      Step s (s.handleClick i)
  | jump (s : GameState) (k : Nat) (h : k < s.history.length) :
      Step s (s.jumpTo k)
  | reset (s : GameState) : Step s s.resetGame
  | modeChange (s : GameState) (m : GameMode) :
      Step s (s.handleModeChange m)
  | applyConfig (s : GameState) (r c w : Nat)
      (h : validationErrors r c w = []) :
      Step s (GameState.resetGame { s with rows := r, cols := c, winSeq := w })
  | timer (s : GameState) (r : Nat) (hg : s.TimerEnabled)
      (hr : r < (GameState.emptyIndices (s.history.getLast?.getD [])).length ∨
        GameState.emptyIndices (s.history.getLast?.getD []) = []) :
      Step s (s.computerMove r)

/-- States reachable from the initial state for props `(r, c, w)`. -/
def Reachable (r c w : Nat) (s : GameState) : Prop :=
  Relation.ReflTransGen Step (initState r c w) s

example : calculateWinner
    [some Mark.X, some Mark.X, some Mark.X,
     some Mark.O, some Mark.O, none,
     none, none, none] 3 3 3 = some Mark.X := by decide

example : calculateWinner
    [some Mark.X, some Mark.O, some Mark.X,
     some Mark.O, some Mark.X, some Mark.O,
     some Mark.O, some Mark.X, some Mark.O] 3 3 3 = none := by decide

example : calculateWinner
    [some Mark.X, none, none,
     none, some Mark.X, none,
     none, none, some Mark.X] 3 3 3 = some Mark.X := by decide

example : validationErrors 2 3 3 =
    ["Rows must be at least 3.", "Winning sequence cannot exceed board dimensions."] := by
  decide

/-! ## General list helpers -/

/-- `findSome?` returns `none` when the function returns `none` on every
element. -/
theorem findSome?_eq_none_of_all (l : List α) (f : α → Option β)
    (h : ∀ a ∈ l, f a = none) : l.findSome? f = none := by
  induction l with
  | nil => rfl
  | cons a t ih =>
      rw [List.findSome?_cons, h a (List.mem_cons_self a t)]
      exact ih fun b hb => h b (List.mem_cons_of_mem a hb)

/-- A list `all` is `false` as soon as one element fails the predicate. -/
theorem all_eq_false_of_mem (l : List α) (p : α → Bool) (x : α)
    (hx : x ∈ l) (hpx : p x = false) : l.all p = false := by
  rw [← Bool.not_eq_true, List.all_eq_true]
  intro h
  exact absurd (h x hx) (by simp [hpx])

/-! ## Configuration validation (claim C2) -/

/-- The validation-error list is empty exactly when the configuration is
within bounds. -/
theorem validationErrors_eq_nil_iff (r c w : Nat) :
    validationErrors r c w = [] ↔ 3 ≤ r ∧ 3 ≤ c ∧ 3 ≤ w ∧ w ≤ r ∧ w ≤ c := by
  unfold validationErrors
  split_ifs <;> simp_all
  omega

/-- C2: a configuration submission with `numRows < 3`, `numCols < 3`,
`winLength < 3`, or `winLength > min(numRows, numCols)` is not applied:
`applyConfiguration` leaves the whole state (history, step number, turn,
configuration) unchanged, the validation-error list is nonempty, and when
`rows < 3` it contains the "Rows must be at least 3." message. -/
theorem applyConfiguration_invalid_rejected (s : GameState)
    (h : s.rows < 3 ∨ s.cols < 3 ∨ s.winSeq < 3 ∨
      s.winSeq > s.rows ∨ s.winSeq > s.cols) :
    s.applyConfiguration = s ∧
    validationErrors s.rows s.cols s.winSeq ≠ [] ∧
    (s.rows < 3 → "Rows must be at least 3." ∈ validationErrors s.rows s.cols s.winSeq) := by
  have hne : validationErrors s.rows s.cols s.winSeq ≠ [] := by
    rw [Ne, validationErrors_eq_nil_iff]
    omega
  refine ⟨?_, hne, ?_⟩
  · unfold GameState.applyConfiguration
    rw [if_neg hne]
  · intro hr
    simp [validationErrors, hr]

/-- A concrete state whose configuration fields hold `(2, 3, 3)`
(Scenario D). -/
def scenarioDState : GameState :=
  { rows := 2, cols := 3, winSeq := 3, mode := GameMode.multi,
    history := [List.replicate 9 (none : Cell)],
    stepNumber := 0, isPlayerXTurn := true }

/-- Witness for C2 at Scenario D: `submitConfiguration(2, 3, 3)` is
rejected with the rows validation error and changes nothing. -/
theorem applyConfiguration_invalid_rejected_witness :
    (scenarioDState.rows < 3 ∨ scenarioDState.cols < 3 ∨ scenarioDState.winSeq < 3 ∨
      scenarioDState.winSeq > scenarioDState.rows ∨ scenarioDState.winSeq > scenarioDState.cols) ∧
    (scenarioDState.applyConfiguration = scenarioDState ∧
     validationErrors scenarioDState.rows scenarioDState.cols scenarioDState.winSeq ≠ [] ∧
     (scenarioDState.rows < 3 →
       "Rows must be at least 3." ∈
         validationErrors scenarioDState.rows scenarioDState.cols scenarioDState.winSeq)) :=
  ⟨Or.inl (by decide), applyConfiguration_invalid_rejected scenarioDState (Or.inl (by decide))⟩

/-! ## jumpTo (claim C6) -/

/-- Counterexample for C6: `jumpTo(5)` on a one-entry log does not fail —
it silently sets `stepNumber := 5`, an invalid active index (the valid
range is `[0, 0]`), leaving the stored entries unchanged and surfacing no
error (the handler is total and returns an ordinary state). -/
theorem jumpTo_out_of_range_silent :
    (initState 3 3 3).history.length = 1 ∧
    ((initState 3 3 3).jumpTo 5).stepNumber = 5 ∧
    ((initState 3 3 3).jumpTo 5).history = (initState 3 3 3).history :=
  ⟨rfl, rfl, rfl⟩

/-- C6 (amended): `jumpTo(index)` sets the active index to the given value
unconditionally — an out-of-range index is silently accepted rather than
failing — and it never alters the stored history entries. -/
theorem jumpTo_sets_index_and_preserves_history (s : GameState) (k : Nat) :
    (s.jumpTo k).stepNumber = k ∧ (s.jumpTo k).history = s.history :=
  ⟨rfl, rfl⟩

/-! ## Illegal moves are silently ignored (claim C5) -/

/-- C5: `handleClick(i)` leaves the whole state unchanged (and surfaces no
error — the handler is total and returns an ordinary state) whenever the
target cell is occupied, it is the computer's turn in single-player mode,
or the game is terminal: a winner exists, or the board is full and the
click targets one of its (occupied) cells. -/
theorem handleClick_illegal_ignored (s : GameState) (i : Nat)
    (h : (s.current.getD i none).isSome ∨
         (s.mode = GameMode.single ∧ s.isPlayerXTurn = false) ∨
         s.winnerOf.isSome ∨
         (s.isBoardFull = true ∧ i < s.current.length)) :
    s.handleClick i = s := by
  unfold GameState.handleClick
  by_cases h1 : s.mode = GameMode.single ∧ s.isPlayerXTurn = false
  · rw [if_pos h1]
  rw [if_neg h1]
  by_cases h2 : s.winnerOf.isSome ∨ (s.current.getD i none).isSome
  · rw [if_pos h2]
  exfalso
  rcases h with hocc | hturn | hwin | ⟨hfull, hlen⟩
  · exact h2 (Or.inr hocc)
  · exact h1 hturn
  · exact h2 (Or.inl hwin)
  · apply h2
    right
    rw [List.getD_eq_getElem s.current none hlen]
    rw [GameState.isBoardFull, List.all_eq_true] at hfull
    exact hfull (s.current[i]) (List.getElem_mem hlen)

/-- A terminal state: a full 3×3 tie board (no winner, every cell
occupied). -/
def tieState : GameState :=
  { rows := 3, cols := 3, winSeq := 3, mode := GameMode.multi,
    history := [[some Mark.X, some Mark.O, some Mark.X,
                 some Mark.O, some Mark.X, some Mark.O,
                 some Mark.O, some Mark.X, some Mark.O]],
    stepNumber := 0, isPlayerXTurn := true }

/-- Witness for C5: on the full tie board, clicking cell 0 changes
nothing. -/
theorem handleClick_illegal_ignored_witness :
    ((tieState.current.getD 0 none).isSome ∨
     (tieState.mode = GameMode.single ∧ tieState.isPlayerXTurn = false) ∨
     tieState.winnerOf.isSome ∨
     (tieState.isBoardFull = true ∧ 0 < tieState.current.length)) ∧
    tieState.handleClick 0 = tieState :=
  ⟨Or.inr (Or.inr (Or.inr ⟨by decide, by decide⟩)),
   handleClick_illegal_ignored tieState 0
     (Or.inr (Or.inr (Or.inr ⟨by decide, by decide⟩)))⟩

/-! ## Branch-and-overwrite history (claim C3) -/

/-- C3: from any state, `jumpTo(k)` (with `k < length − 1`) followed by a
legal human move on an empty cell replaces the log by its first `k+1`
entries plus one appended entry: the new log has length `k+2`, its first
`k+1` entries are those of the original log, and the original entries
after index `k` are discarded. -/
theorem jumpTo_then_move_truncates (s : GameState) (k i : Nat)
    (hk : k + 1 < s.history.length)
    (hturn : s.mode = GameMode.multi ∨ k % 2 = 0)
    (hwin : calculateWinner (s.history.getD k []) s.rows s.cols s.winSeq = none)
    (hcell : (s.history.getD k []).getD i none = none) :
    ((s.jumpTo k).handleClick i).history =
      s.history.take (k + 1) ++
        [(s.history.getD k []).set i (some ((s.jumpTo k).currentPlayer))] ∧
    ((s.jumpTo k).handleClick i).history.length = k + 2 ∧
    ((s.jumpTo k).handleClick i).history.take (k + 1) = s.history.take (k + 1) := by
  have hcur : (s.jumpTo k).current = s.history.getD k [] := rfl
  have hguard1 : ¬((s.jumpTo k).mode = GameMode.single ∧
      (s.jumpTo k).isPlayerXTurn = false) := by
    rcases hturn with hm | hpar
    · intro hc
      rw [show (s.jumpTo k).mode = s.mode from rfl, hm] at hc
      exact absurd hc.1 (by simp)
    · intro hc
      have : (s.jumpTo k).isPlayerXTurn = true := by
        show decide (k % 2 = 0) = true
        simp [hpar]
      rw [this] at hc
      exact absurd hc.2 (by simp)
  have hguard2 : ¬((s.jumpTo k).winnerOf.isSome ∨
      (((s.jumpTo k).current.getD i none).isSome)) := by
    rw [GameState.winnerOf, hcur]
    rw [show (s.jumpTo k).rows = s.rows from rfl,
        show (s.jumpTo k).cols = s.cols from rfl,
        show (s.jumpTo k).winSeq = s.winSeq from rfl, hwin, hcell]
    simp
  have hhist : ((s.jumpTo k).handleClick i).history =
      s.history.take (k + 1) ++
        [(s.history.getD k []).set i (some ((s.jumpTo k).currentPlayer))] := by
    unfold GameState.handleClick
    rw [if_neg hguard1, if_neg hguard2]
    rfl
  have hlen : (s.history.take (k + 1)).length = k + 1 := by
    rw [List.length_take]
    omega
  refine ⟨hhist, ?_, ?_⟩
  · rw [hhist, List.length_append, hlen]
    rfl
  · rw [hhist, List.take_append_of_le_length (by omega), List.take_take]
    simp

/-- Scenario E's 5-entry history: X at 0, O at 4, X at 1, O at 5, on an
otherwise empty 3×3 board, with the pointer at the last move. -/
def scenarioEState : GameState :=
  { rows := 3, cols := 3, winSeq := 3, mode := GameMode.multi,
    history :=
      [List.replicate 9 (none : Cell),
       [some Mark.X, none, none, none, none, none, none, none, none],
       [some Mark.X, none, none, none, some Mark.O, none, none, none, none],
       [some Mark.X, some Mark.X, none, none, some Mark.O, none, none, none, none],
       [some Mark.X, some Mark.X, none, none, some Mark.O, some Mark.O, none, none, none]],
    stepNumber := 4, isPlayerXTurn := true }

/-- Witness for C3 at Scenario E: from the 5-entry history, `jumpTo(2)`
then a move at cell 7 yields a 4-entry log preserving entries 0, 1, 2. -/
theorem jumpTo_then_move_truncates_witness :
    (2 + 1 < scenarioEState.history.length ∧
     (scenarioEState.mode = GameMode.multi ∨ 2 % 2 = 0) ∧
     calculateWinner (scenarioEState.history.getD 2 [])
       scenarioEState.rows scenarioEState.cols scenarioEState.winSeq = none ∧
     (scenarioEState.history.getD 2 []).getD 7 none = none) ∧
    (((scenarioEState.jumpTo 2).handleClick 7).history =
       scenarioEState.history.take (2 + 1) ++
         [(scenarioEState.history.getD 2 []).set 7
           (some ((scenarioEState.jumpTo 2).currentPlayer))] ∧
     ((scenarioEState.jumpTo 2).handleClick 7).history.length = 2 + 2 ∧
     ((scenarioEState.jumpTo 2).handleClick 7).history.take (2 + 1) =
       scenarioEState.history.take (2 + 1)) :=
  ⟨⟨by decide, Or.inl rfl, by decide, by decide⟩,
   jumpTo_then_move_truncates scenarioEState 2 7 (by decide) (Or.inl rfl)
     (by decide) (by decide)⟩

/-! ## Win detector vs. board dimensions (claim C7) -/

/-- Counterexample for C7: with `winLength = 4` strictly greater than
`numRows = 3` (one of the two dimensions), a horizontal line of four still
wins on a 3×5 board, so the detector does not report "no winner". -/
theorem winner_despite_winLength_exceeding_rows :
    3 < 4 ∧
    calculateWinner
      [some Mark.X, some Mark.X, some Mark.X, some Mark.X, none,
       none, none, none, none, none,
       none, none, none, none, none] 3 5 4 = some Mark.X :=
  ⟨by decide, by decide⟩

/-- `checkDirection` is `false` as soon as a single probed offset lands out
of bounds. -/
theorem checkDirection_eq_false_of_oob (squares : List Cell)
    (row col dRow dCol : Int) (w r c : Nat) (p : Mark) (offset : Nat)
    (ho : offset < w)
    (hbad : ¬(0 ≤ row + (offset : Int) * dRow ∧
              row + (offset : Int) * dRow < (r : Int) ∧
              0 ≤ col + (offset : Int) * dCol ∧
              col + (offset : Int) * dCol < (c : Int))) :
    checkDirection squares row col dRow dCol w r c p = false := by
  unfold checkDirection
  apply all_eq_false_of_mem _ _ offset (List.mem_range.mpr ho)
  rw [← Bool.not_eq_true]
  intro hT
  simp only [Bool.and_eq_true, decide_eq_true_eq] at hT
  exact hbad ⟨hT.1.1.1.1, hT.1.1.1.2, hT.1.1.2, hT.1.2⟩

/-- C7 (amended): when the win-length exceeds *both* board dimensions, no
line of that length fits on the board in any direction, so
`calculateWinner` reports "no winner" for every board. -/
theorem calculateWinner_none_of_winLength_exceeds_both (squares : List Cell)
    (r c w : Nat) (hr : r < w) (hc : c < w) :
    calculateWinner squares r c w = none := by
  unfold calculateWinner
  apply findSome?_eq_none_of_all
  intro row hrow
  apply findSome?_eq_none_of_all
  intro col hcol
  rw [List.mem_range] at hrow hcol
  cases hcell : squares.getD (row * c + col) none with
  | none => rfl
  | some p =>
      have h1 : checkDirection squares row col 0 1 w r c p = false := by
        refine checkDirection_eq_false_of_oob squares _ _ _ _ w r c p (c - col)
          (by omega) ?_
        intro hcon
        have := hcon.2.2.2
        omega
      have h2 : checkDirection squares row col 1 0 w r c p = false := by
        refine checkDirection_eq_false_of_oob squares _ _ _ _ w r c p (r - row)
          (by omega) ?_
        intro hcon
        have := hcon.2.1
        omega
      have h3 : checkDirection squares row col 1 1 w r c p = false := by
        refine checkDirection_eq_false_of_oob squares _ _ _ _ w r c p (c - col)
          (by omega) ?_
        intro hcon
        have := hcon.2.2.2
        omega
      have h4 : checkDirection squares row col 1 (-1) w r c p = false := by
        refine checkDirection_eq_false_of_oob squares _ _ _ _ w r c p (r - row)
          (by omega) ?_
        intro hcon
        have := hcon.2.1
        omega
      simp [h1, h2, h3, h4]

/-- Witness for C7 (amended): win-length 3 on a 2×2 board full of X finds
no winner. -/
theorem calculateWinner_none_of_winLength_exceeds_both_witness :
    2 < 3 ∧
    calculateWinner [some Mark.X, some Mark.X, some Mark.X, some Mark.X] 2 2 3 = none :=
  ⟨by decide,
   calculateWinner_none_of_winLength_exceeds_both
     [some Mark.X, some Mark.X, some Mark.X, some Mark.X] 2 2 3 (by decide) (by decide)⟩

/-! ## In-bounds reads of the win detector (claim C10) -/

/-- `all` only depends on the predicate's values on the list's members. -/
theorem all_congr_of_mem (l : List α) (f g : α → Bool)
    (h : ∀ x ∈ l, f x = g x) : l.all f = l.all g := by
  induction l with
  | nil => rfl
  | cons a t ih =>
      rw [List.all_cons, List.all_cons, h a (List.mem_cons_self a t),
        ih fun x hx => h x (List.mem_cons_of_mem a hx)]

/-- `findSome?` only depends on the function's values on the list's
members. -/
theorem findSome?_congr_of_mem (l : List α) (f g : α → Option β)
    (h : ∀ x ∈ l, f x = g x) : l.findSome? f = l.findSome? g := by
  induction l with
  | nil => rfl
  | cons a t ih =>
      rw [List.findSome?_cons, List.findSome?_cons, h a (List.mem_cons_self a t),
        ih fun x hx => h x (List.mem_cons_of_mem a hx)]

/-- The flat index `currentRow * numCols + currentCol` computed after the
bound checks of `checkDirection` is always inside `[0, numRows*numCols)`. -/
theorem flat_index_lt_of_bounds (cr cc : Int) (r c : Nat)
    (h1 : 0 ≤ cr) (h2 : cr < (r : Int)) (h3 : 0 ≤ cc) (h4 : cc < (c : Int)) :
    (cr * (c : Int) + cc).toNat < r * c := by
  have hmul : cr * (c : Int) ≤ ((r : Int) - 1) * c := by
    apply mul_le_mul_of_nonneg_right (by omega) (by positivity)
  have hrc : ((r * c : Nat) : Int) = (r : Int) * (c : Int) := by
    push_cast
    ring
  have hlt : cr * (c : Int) + cc < ((r * c : Nat) : Int) := by
    rw [hrc]
    nlinarith
  have hg : 0 ≤ cr * (c : Int) := mul_nonneg h1 (by positivity)
  omega

/-- Row-major origin index of the `calculateWinner` scan is in bounds. -/
theorem origin_index_lt (row col r c : Nat) (h1 : row < r) (h2 : col < c) :
    row * c + col < r * c :=
  calc row * c + col < row * c + c := by omega
    _ = (row + 1) * c := by ring
    _ ≤ r * c := Nat.mul_le_mul_right c h1

/-- `checkDirection` reads only positions whose flat index is below
`numRows * numCols`: two boards that agree on all those indices give the
same answer, for every start position and direction. -/
theorem checkDirection_agrees (B B' : List Cell) (r c w : Nat)
    (hag : ∀ i, i < r * c → B.getD i none = B'.getD i none)
    (row col dRow dCol : Int) (p : Mark) :
    checkDirection B row col dRow dCol w r c p =
      checkDirection B' row col dRow dCol w r c p := by
  unfold checkDirection
  apply all_congr_of_mem
  intro o ho
  simp only
  by_cases hb : 0 ≤ row + (o : Int) * dRow ∧ row + (o : Int) * dRow < (r : Int) ∧
      0 ≤ col + (o : Int) * dCol ∧ col + (o : Int) * dCol < (c : Int)
  · rw [hag _ (flat_index_lt_of_bounds _ _ r c hb.1 hb.2.1 hb.2.2.1 hb.2.2.2)]
  · have hfalse : (decide (0 ≤ row + (o : Int) * dRow) &&
        decide (row + (o : Int) * dRow < (r : Int)) &&
        decide (0 ≤ col + (o : Int) * dCol) &&
        decide (col + (o : Int) * dCol < (c : Int))) = false := by
      rw [← Bool.not_eq_true]
      intro hT
      simp only [Bool.and_eq_true, decide_eq_true_eq] at hT
      exact hb ⟨hT.1.1.1, hT.1.1.2, hT.1.2, hT.2⟩
    rw [hfalse, Bool.false_and, Bool.false_and]

/-- C10: for a board of length `numRows * numCols` and `winCondition ≥ 1`,
`calculateWinner` and `checkDirection` never read an out-of-range cell: the
row/column bound checks precede each read, so every flat index accessed
lies in `[0, numRows*numCols)`, and consequently both functions give the
same result on any board that agrees with the given one on those
indices (they are total Lean functions by construction). -/
theorem calculateWinner_reads_in_bounds (B B' : List Cell) (r c w : Nat)
    (_hlen : B.length = r * c) (_hw : 1 ≤ w)
    (hag : ∀ i, i < r * c → B.getD i none = B'.getD i none) :
    calculateWinner B r c w = calculateWinner B' r c w ∧
    ∀ row col dRow dCol p, checkDirection B row col dRow dCol w r c p =
      checkDirection B' row col dRow dCol w r c p := by
  refine ⟨?_, fun row col dRow dCol p => checkDirection_agrees B B' r c w hag row col dRow dCol p⟩
  unfold calculateWinner
  apply findSome?_congr_of_mem
  intro row hrow
  apply findSome?_congr_of_mem
  intro col hcol
  rw [List.mem_range] at hrow hcol
  rw [hag _ (origin_index_lt row col r c hrow hcol)]
  cases hcell : B'.getD (row * c + col) none with
  | none => rfl
  | some p =>
      simp only [checkDirection_agrees B B' r c w hag]

/-- Witness for C10: a 3×3 board and the same board with a junk cell
appended past index 8 give the same winner. -/
theorem calculateWinner_reads_in_bounds_witness :
    ((List.replicate 9 (none : Cell)).length = 3 * 3 ∧ 1 ≤ 3 ∧
     (∀ i, i < 3 * 3 →
       (List.replicate 9 (none : Cell)).getD i none =
         (List.replicate 9 (none : Cell) ++ [some Mark.O]).getD i none)) ∧
    calculateWinner (List.replicate 9 (none : Cell)) 3 3 3 =
      calculateWinner (List.replicate 9 (none : Cell) ++ [some Mark.O]) 3 3 3 :=
  ⟨⟨by decide, by decide, by decide⟩,
   (calculateWinner_reads_in_bounds (List.replicate 9 (none : Cell))
     (List.replicate 9 (none : Cell) ++ [some Mark.O]) 3 3 3
     (by decide) (by decide) (by decide)).1⟩

/-! ## Reachable-state invariants (claims C4, C9, C1) -/

/-- Two consecutive history entries are one accepted move apart: the later
entry is the earlier one with exactly one previously-empty cell set to a
player mark (all other cells, and the length, unchanged). -/
def ConsecutiveOk (prev next : List Cell) : Prop :=
  ∃ i m, i < prev.length ∧ prev.getD i none = none ∧ next = prev.set i (some m)

/-- Invariant maintained by every reachable state: the log is nonempty, the
step pointer is in range, every entry has `rows * cols` cells, in
multiplayer mode the step parity determines the turn, and consecutive
entries are one move apart. -/
def GameInv (s : GameState) : Prop :=
  0 < s.history.length ∧
  s.stepNumber < s.history.length ∧
  (∀ e ∈ s.history, e.length = s.rows * s.cols) ∧
  (s.mode = GameMode.multi → (s.stepNumber % 2 = 0 ↔ s.isPlayerXTurn = true)) ∧
  List.Chain' ConsecutiveOk s.history

theorem inv_initState (r c w : Nat) : GameInv (initState r c w) := by
  refine ⟨by simp [initState], by simp [initState], ?_, ?_, ?_⟩
  · intro e he
    simp only [initState, List.mem_singleton] at he
    simp [he, initState]
  · intro _
    simp [initState]
  · simp [initState]

theorem inv_resetGame (s : GameState) : GameInv s.resetGame := by
  refine ⟨by simp [GameState.resetGame], by simp [GameState.resetGame], ?_, ?_, ?_⟩
  · intro e he
    simp only [GameState.resetGame, List.mem_singleton] at he
    simp [he, GameState.resetGame]
  · intro _
    simp [GameState.resetGame]
  · simp [GameState.resetGame]

theorem inv_jumpTo (s : GameState) (hInv : GameInv s) (k : Nat)
    (hk : k < s.history.length) : GameInv (s.jumpTo k) := by
  obtain ⟨h0, _, hlen, _, hchain⟩ := hInv
  refine ⟨h0, hk, hlen, ?_, hchain⟩
  intro _
  simp [GameState.jumpTo]

/-- The last entry of `l.take (n+1)` is `l.get n` when `n` is in range. -/
theorem getLast?_take_succ (l : List α) (n : Nat) (h : n < l.length) :
    (l.take (n+1)).getLast? = some (l.get ⟨n, h⟩) := by
  rw [List.getLast?_eq_getElem?]
  have hlen : (l.take (n+1)).length = n + 1 := by
    rw [List.length_take]; omega
  rw [hlen]
  simp [List.getElem?_take, List.getElem?_eq_getElem h]

theorem inv_handleClick (s : GameState) (hInv : GameInv s) (i : Nat)
    (hi : i < s.rows * s.cols) : GameInv (s.handleClick i) := by
  obtain ⟨h0, hstep, hlen, hpar, hchain⟩ := hInv
  unfold GameState.handleClick
  by_cases h1 : s.mode = GameMode.single ∧ s.isPlayerXTurn = false
  · rw [if_pos h1]
    exact ⟨h0, hstep, hlen, hpar, hchain⟩
  rw [if_neg h1]
  by_cases h2 : s.winnerOf.isSome ∨ (s.current.getD i none).isSome
  · rw [if_pos h2]
    exact ⟨h0, hstep, hlen, hpar, hchain⟩
  rw [if_neg h2]
  push_neg at h2
  have hcell : s.current.getD i none = none := by
    have := h2.2
    simpa using this
  have hcur : s.current = s.history.get ⟨s.stepNumber, hstep⟩ := by
    rw [GameState.current, List.getD_eq_getElem _ _ hstep]
    rfl
  have hcurlen : s.current.length = s.rows * s.cols := by
    rw [hcur]
    exact hlen _ (List.get_mem _ _ hstep)
  have htl : (s.history.take (s.stepNumber + 1)).length = s.stepNumber + 1 := by
    rw [List.length_take]; omega
  have hNH : (s.history.take (s.stepNumber + 1) ++
      [s.current.set i (some s.currentPlayer)]).length = s.stepNumber + 2 := by
    rw [List.length_append, htl]
    rfl
  refine ⟨?_, ?_, ?_, ?_, ?_⟩
  · show 0 < (s.history.take (s.stepNumber + 1) ++
      [s.current.set i (some s.currentPlayer)]).length
    omega
  · show (s.history.take (s.stepNumber + 1) ++
        [s.current.set i (some s.currentPlayer)]).length - 1 <
      (s.history.take (s.stepNumber + 1) ++
        [s.current.set i (some s.currentPlayer)]).length
    omega
  · intro e he
    show e.length = s.rows * s.cols
    rcases List.mem_append.mp he with ha | hb
    · exact hlen e (List.take_subset _ _ ha)
    · rw [List.mem_singleton.mp hb, List.length_set]
      exact hcurlen
  · intro hm
    have hp := hpar hm
    show ((s.history.take (s.stepNumber + 1) ++
        [s.current.set i (some s.currentPlayer)]).length - 1) % 2 = 0 ↔
      (if s.mode = GameMode.single then false else !s.isPlayerXTurn) = true
    rw [hNH]
    rw [if_neg (by rw [hm]; decide)]
    cases hb : s.isPlayerXTurn
    · rw [hb] at hp
      have h1 : ¬(s.stepNumber % 2 = 0) := fun h => absurd (hp.mp h) (by simp)
      simp only [Bool.not_false]
      constructor
      · intro _
        trivial
      · intro _
        omega
    · rw [hb] at hp
      have h1 : s.stepNumber % 2 = 0 := hp.mpr rfl
      simp only [Bool.not_true]
      constructor
      · intro hcon
        exfalso
        omega
      · intro hcon
        exact absurd hcon (by simp)
  · show List.Chain' ConsecutiveOk (s.history.take (s.stepNumber + 1) ++
      [s.current.set i (some s.currentPlayer)])
    refine List.chain'_append.mpr ⟨hchain.take _, List.chain'_singleton _, ?_⟩
    intro x hx y hy
    rw [getLast?_take_succ s.history s.stepNumber hstep] at hx
    simp only [Option.mem_def, Option.some_inj] at hx
    simp only [List.head?_cons, Option.mem_def, Option.some_inj] at hy
    subst hx
    subst hy
    rw [← hcur]
    exact ⟨i, s.currentPlayer, by omega, hcell, rfl⟩

/-- Membership in `emptyIndices l` means: an in-range index holding an
empty cell. -/
theorem mem_emptyIndices {l : List Cell} {j : Nat}
    (h : j ∈ GameState.emptyIndices l) : j < l.length ∧ l.getD j none = none := by
  rw [GameState.emptyIndices] at h
  have h' := List.mem_filter.mp h
  refine ⟨List.mem_range.mp h'.1, ?_⟩
  have := h'.2
  simpa using this

theorem inv_computerMove (s : GameState) (hInv : GameInv s) (r : Nat)
    (hg : s.TimerEnabled)
    (hr : r < (GameState.emptyIndices (s.history.getLast?.getD [])).length ∨
      GameState.emptyIndices (s.history.getLast?.getD []) = []) :
    GameInv (s.computerMove r) := by
  obtain ⟨h0, hstep, hlen, hpar, hchain⟩ := hInv
  obtain ⟨hmode, hturn, hwin, hfull⟩ := hg
  have hne : s.history ≠ [] := List.ne_nil_of_length_pos h0
  have hlast : s.history.getLast?.getD [] = s.history.getLast hne := by
    rw [List.getLast?_eq_getLast _ hne]
    rfl
  have hcur : s.current = s.history.get ⟨s.stepNumber, hstep⟩ := by
    rw [GameState.current, List.getD_eq_getElem _ _ hstep]
    rfl
  by_cases hemp : (GameState.emptyIndices (s.history.getLast?.getD [])).isEmpty
  · -- the latest entry is full, so no entry is appended
    have hfullLatest : ∀ j, j < (s.history.getLast hne).length →
        (s.history.getLast hne).getD j none ≠ none := by
      intro j hj hnone
      have hmem : j ∈ GameState.emptyIndices (s.history.getLast?.getD []) := by
        rw [hlast]
        exact List.mem_filter.mpr ⟨List.mem_range.mpr hj,
          by simp only [hnone, Option.isNone_none]⟩
      rw [List.isEmpty_iff] at hemp
      rw [hemp] at hmem
      exact absurd hmem (List.not_mem_nil _)
    have hstep' : s.stepNumber ≠ s.history.length - 1 := by
      intro heq
      have hfin : (⟨s.stepNumber, hstep⟩ : Fin s.history.length) =
          ⟨s.history.length - 1, by omega⟩ := Fin.ext heq
      have hcl : s.current = s.history.getLast hne := by
        rw [hcur, hfin, List.getLast_eq_getElem, List.get_eq_getElem]
      have hBoardFull : s.isBoardFull = true := by
        rw [GameState.isBoardFull, List.all_eq_true]
        intro cell hcell
        rw [hcl] at hcell
        obtain ⟨⟨j, hjlt⟩, hget⟩ := List.mem_iff_get.mp hcell
        have hj := hfullLatest j hjlt
        rw [List.getD_eq_getElem _ _ hjlt] at hj
        cases hc : cell with
        | some m => rfl
        | none =>
            rw [hc] at hget
            rw [List.get_eq_getElem] at hget
            exact absurd hget hj
      rw [hBoardFull] at hfull
      cases hfull
    simp only [GameState.computerMove]
    rw [if_pos hemp]
    refine ⟨h0, (by omega : s.stepNumber + 1 < s.history.length), hlen, ?_, hchain⟩
    intro hm
    have hm' : s.mode = GameMode.multi := hm
    rw [hmode] at hm'
    exact absurd hm' (by decide)
  · -- an empty cell exists: one entry is appended at the end
    have hrlt : r < (GameState.emptyIndices (s.history.getLast?.getD [])).length := by
      rcases hr with h | h
      · exact h
      · rw [h] at hemp
        simp at hemp
    have hidx : (GameState.emptyIndices (s.history.getLast?.getD [])).getD r 0 ∈
        GameState.emptyIndices (s.history.getLast?.getD []) := by
      rw [List.getD_eq_getElem _ _ hrlt]
      exact List.getElem_mem hrlt
    obtain ⟨hin, hpred⟩ := mem_emptyIndices hidx
    simp only [GameState.computerMove]
    rw [if_neg hemp]
    refine ⟨?_, ?_, ?_, ?_, ?_⟩
    · show 0 < (s.history ++ [_]).length
      rw [List.length_append, List.length_singleton]
      omega
    · show s.stepNumber + 1 < (s.history ++ [_]).length
      rw [List.length_append, List.length_singleton]
      omega
    · intro e he
      show e.length = s.rows * s.cols
      rcases List.mem_append.mp he with ha | hb
      · exact hlen e ha
      · rw [List.mem_singleton.mp hb, List.length_set, hlast]
        exact hlen _ (List.getLast_mem hne)
    · intro hm
      have hm' : s.mode = GameMode.multi := hm
      rw [hmode] at hm'
      exact absurd hm' (by decide)
    · show List.Chain' ConsecutiveOk (s.history ++ [_])
      refine List.chain'_append.mpr ⟨hchain, List.chain'_singleton _, ?_⟩
      intro x hx y hy
      rw [List.getLast?_eq_getLast _ hne] at hx
      simp only [Option.mem_def, Option.some_inj] at hx
      simp only [List.head?_cons, Option.mem_def, Option.some_inj] at hy
      subst hx
      subst hy
      refine ⟨(GameState.emptyIndices (s.history.getLast?.getD [])).getD r 0, Mark.O,
        ?_, ?_, ?_⟩
      · rw [← hlast]
        exact hin
      · rw [← hlast]
        exact hpred
      · rw [hlast]

/-- Every reachable state satisfies the machine invariant. -/
theorem reachable_inv {r c w : Nat} {s : GameState}
    (h : Reachable r c w s) : GameInv s := by
  induction h with
  | refl => exact inv_initState r c w
  | tail _ hstep ih =>
      cases hstep with
      | click i hi => exact inv_handleClick _ ih i hi
      | jump k hk => exact inv_jumpTo _ ih k hk
      | reset => exact inv_resetGame _
      | modeChange m => exact inv_resetGame _
      | applyConfig r' c' w' hv => exact inv_resetGame _
      | timer rr hg hr => exact inv_computerMove _ ih rr hg hr

/-- C4: in Multiplayer mode, for every state reachable from the initial
state (for any props) by any sequence of operations, the active history
index is even exactly when PlayerX is the player to move. -/
theorem multiplayer_turn_parity (r c w : Nat) (s : GameState)
    (hs : Reachable r c w s) (hm : s.mode = GameMode.multi) :
    s.stepNumber % 2 = 0 ↔ s.isPlayerXTurn = true :=
  (reachable_inv hs).2.2.2.1 hm

/-- Witness for C4 at the initial state: index 0 is even and X moves. -/
theorem multiplayer_turn_parity_witness :
    Reachable 3 3 3 (initState 3 3 3) ∧
    (initState 3 3 3).mode = GameMode.multi ∧
    ((initState 3 3 3).stepNumber % 2 = 0 ↔ (initState 3 3 3).isPlayerXTurn = true) :=
  ⟨Relation.ReflTransGen.refl, rfl,
   multiplayer_turn_parity 3 3 3 (initState 3 3 3) Relation.ReflTransGen.refl rfl⟩

/-- C9: in every reachable state, any two consecutive history entries
differ in exactly one cell, which goes from empty to a player mark (the
later entry is the earlier one with a single previously-empty cell set);
no cell ever changes from one mark to another or back to empty. -/
theorem history_consecutive_entries_one_move_apart (r c w : Nat)
    (s : GameState) (hs : Reachable r c w s) :
    List.Chain' ConsecutiveOk s.history :=
  (reachable_inv hs).2.2.2.2

/-- Witness for C9: a two-entry reachable history (after one move from the
initial state) satisfies the chain invariant. -/
theorem history_consecutive_entries_one_move_apart_witness :
    Reachable 3 3 3 ((initState 3 3 3).handleClick 4) ∧
    List.Chain' ConsecutiveOk ((initState 3 3 3).handleClick 4).history :=
  ⟨Relation.ReflTransGen.head (Step.click (initState 3 3 3) 4 (by decide))
     Relation.ReflTransGen.refl,
   history_consecutive_entries_one_move_apart 3 3 3 _
     (Relation.ReflTransGen.head (Step.click (initState 3 3 3) 4 (by decide))
       Relation.ReflTransGen.refl)⟩

/-! ## Jumping and the computer-move effect (claim C1) -/

/-- Single-player game after switching mode: fresh 3×3 board. -/
def c1AfterMode : GameState := (initState 3 3 3).handleModeChange GameMode.single

/-- ... after the human plays cell 0. -/
def c1AfterHuman : GameState := c1AfterMode.handleClick 0

/-- ... after the computer replies (first empty cell, draw 0). -/
def c1AfterComputer : GameState := c1AfterHuman.computerMove 0

/-- ... after browsing back to move 1 via `jumpTo`. -/
def c1AfterJump : GameState := c1AfterComputer.jumpTo 1

/-- Counterexample for C1: in single-player mode, after the reachable
3-entry history `[start, X@0, X@0+O@1]`, `jumpTo(1)` re-enables the
computer-move effect condition, and the timer transition is a legal step
from the jumped-to state that appends a new history entry — a computer
move caused by browsing history alone, with no intervening
`submitHumanMove`. -/
theorem jump_can_trigger_computer_move :
    Reachable 3 3 3 c1AfterJump ∧
    c1AfterJump = c1AfterComputer.jumpTo 1 ∧
    c1AfterJump.TimerEnabled ∧
    Step c1AfterJump (c1AfterJump.computerMove 0) ∧
    (c1AfterJump.computerMove 0).history.length = c1AfterJump.history.length + 1 := by
  refine ⟨?_, rfl, by decide, Step.timer c1AfterJump 0 (by decide) (Or.inl (by decide)),
    by decide⟩
  exact Relation.ReflTransGen.head (Step.modeChange (initState 3 3 3) GameMode.single)
    (Relation.ReflTransGen.head (Step.click c1AfterMode 0 (by decide))
      (Relation.ReflTransGen.head (Step.timer c1AfterHuman 0 (by decide) (Or.inl (by decide)))
        (Relation.ReflTransGen.head (Step.jump c1AfterComputer 1 (by decide))
          Relation.ReflTransGen.refl)))

/-- C1 (amended): `jumpTo` by itself never changes the history log or any
board in it, and a jump to an even index (PlayerX to move) leaves the
computer-move condition disabled; but a jump to an odd index in
single-player mode whose target position has no winner and a non-full
board enables the computer-move effect, which then appends an entry to the
log without any `submitHumanMove`. -/
theorem jumpTo_log_preserved_and_timer_condition (s : GameState) (k : Nat) :
    (s.jumpTo k).history = s.history ∧
    (k % 2 = 0 → ¬(s.jumpTo k).TimerEnabled) ∧
    (s.mode = GameMode.single → k % 2 = 1 →
      calculateWinner (s.history.getD k []) s.rows s.cols s.winSeq = none →
      ((s.history.getD k []).all fun x => x.isSome) = false →
      (s.jumpTo k).TimerEnabled) := by
  refine ⟨rfl, ?_, ?_⟩
  · intro hk htimer
    have hturn : (s.jumpTo k).isPlayerXTurn = false := htimer.2.1
    rw [show (s.jumpTo k).isPlayerXTurn = decide (k % 2 = 0) from rfl] at hturn
    rw [hk] at hturn
    exact absurd hturn (by simp)
  · intro hmode hk hwin hfull
    refine ⟨hmode, ?_, hwin, hfull⟩
    rw [show (s.jumpTo k).isPlayerXTurn = decide (k % 2 = 0) from rfl]
    simp [hk]

/-- Witness for C1 (amended) at the concrete post-computer-move state:
jumping to odd index 1 preserves the log and enables the computer-move
condition. -/
theorem jumpTo_log_preserved_and_timer_condition_witness :
    (c1AfterComputer.jumpTo 1).history = c1AfterComputer.history ∧
    (c1AfterComputer.jumpTo 1).TimerEnabled :=
  ⟨(jumpTo_log_preserved_and_timer_condition c1AfterComputer 1).1,
   (jumpTo_log_preserved_and_timer_condition c1AfterComputer 1).2.2
     (by decide) (by decide) (by decide) (by decide)⟩

/-! ## Symmetry of the win detector (claim C8) -/

/-- Horizontal reflection of an `r × c` row-major board (columns
reversed). -/
def flipH (B : List Cell) (r c : Nat) : List Cell :=
  (List.range (r * c)).map fun idx => B.getD ((idx / c) * c + (c - 1 - idx % c)) none

/-- Vertical reflection of an `r × c` row-major board (rows reversed). -/
def flipV (B : List Cell) (r c : Nat) : List Cell :=
  (List.range (r * c)).map fun idx => B.getD ((r - 1 - idx / c) * c + idx % c) none

/-- 180° rotation of an `r × c` row-major board. -/
def rot180 (B : List Cell) (r c : Nat) : List Cell :=
  (List.range (r * c)).map fun idx => B.getD ((r - 1 - idx / c) * c + (c - 1 - idx % c)) none

/-- Transposition: the `c × r` board whose cell `(i, j)` is `B`'s cell
`(j, i)`. -/
def transposeB (B : List Cell) (r c : Nat) : List Cell :=
  (List.range (c * r)).map fun idx => B.getD ((idx % r) * c + idx / r) none

/-- Counterexample for C8: on a board where both players have a winning
line, the row-major scan of `calculateWinner` returns X, but on the
vertically reflected board (grid shape preserved, win-length 3 ≤ min(3,3))
it returns O — the transformed board does not yield the same winner
result. -/
theorem calculateWinner_value_not_symmetric :
    3 ≤ min 3 3 ∧
    calculateWinner
      [some Mark.X, some Mark.X, some Mark.X,
       some Mark.O, some Mark.O, some Mark.O,
       none, none, none] 3 3 3 = some Mark.X ∧
    calculateWinner
      (flipV [some Mark.X, some Mark.X, some Mark.X,
              some Mark.O, some Mark.O, some Mark.O,
              none, none, none] 3 3) 3 3 3 = some Mark.O :=
  ⟨by decide, by decide, by decide⟩

/-- Element of a `map` over `range` at an in-range index. -/
theorem getD_map_range (n : Nat) (f : Nat → α) (i : Nat) (d : α) (h : i < n) :
    ((List.range n).map f).getD i d = f i := by
  rw [List.getD_eq_getElem _ _ (by simpa using h), List.getElem_map, List.getElem_range]

/-- Row extraction from a row-major index. -/
theorem rowcol_div (i j c : Nat) (h : j < c) : (i * c + j) / c = i := by
  rw [show i * c + j = c * i + j from by ring, Nat.mul_add_div (by omega),
    Nat.div_eq_of_lt h, Nat.add_zero]

/-- Column extraction from a row-major index. -/
theorem rowcol_mod (i j c : Nat) (h : j < c) : (i * c + j) % c = j := by
  rw [show i * c + j = c * i + j from by ring, Nat.mul_add_mod, Nat.mod_eq_of_lt h]

/-- Reading the horizontally flipped board at `(i, j)` reads `B` at
`(i, c-1-j)`. -/
theorem flipH_getD (B : List Cell) (r c i j : Nat) (hi : i < r) (hj : j < c) :
    (flipH B r c).getD (i * c + j) none = B.getD (i * c + (c - 1 - j)) none := by
  rw [flipH, getD_map_range _ _ _ _ (origin_index_lt i j r c hi hj),
    rowcol_div i j c hj, rowcol_mod i j c hj]

/-- Reading the vertically flipped board at `(i, j)` reads `B` at
`(r-1-i, j)`. -/
theorem flipV_getD (B : List Cell) (r c i j : Nat) (hi : i < r) (hj : j < c) :
    (flipV B r c).getD (i * c + j) none = B.getD ((r - 1 - i) * c + j) none := by
  rw [flipV, getD_map_range _ _ _ _ (origin_index_lt i j r c hi hj),
    rowcol_div i j c hj, rowcol_mod i j c hj]

/-- Reading the transposed board at `(i, j)` (a `c × r` board) reads `B`
at `(j, i)`. -/
theorem transposeB_getD (B : List Cell) (r c i j : Nat) (hi : i < c) (hj : j < r) :
    (transposeB B r c).getD (i * r + j) none = B.getD (j * c + i) none := by
  rw [transposeB, getD_map_range _ _ _ _ (origin_index_lt i j c r hi hj),
    rowcol_div i j r hj, rowcol_mod i j r hj]

/-- Pointwise specification of `checkDirection`: all probed offsets are in
bounds and hold the player's mark. -/
theorem checkDirection_spec (B : List Cell) (row col dRow dCol : Int)
    (w r c : Nat) (p : Mark) :
    checkDirection B row col dRow dCol w r c p = true ↔
    ∀ o : Nat, o < w →
      (0 ≤ row + (o : Int) * dRow ∧ row + (o : Int) * dRow < (r : Int) ∧
       0 ≤ col + (o : Int) * dCol ∧ col + (o : Int) * dCol < (c : Int)) ∧
      B.getD ((row + (o : Int) * dRow) * (c : Int) +
        (col + (o : Int) * dCol)).toNat none = some p := by
  unfold checkDirection
  rw [List.all_eq_true]
  constructor
  · intro h o ho
    have hx := h o (List.mem_range.mpr ho)
    simp only [Bool.and_eq_true, decide_eq_true_eq] at hx
    exact ⟨⟨hx.1.1.1.1, hx.1.1.1.2, hx.1.1.2, hx.1.2⟩, hx.2⟩
  · intro h x hx
    rw [List.mem_range] at hx
    obtain ⟨⟨h1, h2, h3, h4⟩, h5⟩ := h x hx
    simp only [Bool.and_eq_true, decide_eq_true_eq]
    exact ⟨⟨⟨⟨h1, h2⟩, h3⟩, h4⟩, h5⟩

/-- A winning probe read backwards from its endpoint is still winning. -/
theorem checkDirection_reverse (B : List Cell) (row col dRow dCol : Int)
    (w r c : Nat) (p : Mark)
    (h : checkDirection B row col dRow dCol w r c p = true) :
    checkDirection B (row + ((w : Int) - 1) * dRow) (col + ((w : Int) - 1) * dCol)
      (-dRow) (-dCol) w r c p = true := by
  rw [checkDirection_spec] at h ⊢
  intro o ho
  have hrev := h (w - 1 - o) (by omega)
  have ecast : ((w - 1 - o : Nat) : Int) = (w : Int) - 1 - (o : Int) := by omega
  have e1 : row + ((w : Int) - 1) * dRow + (o : Int) * -dRow =
      row + ((w - 1 - o : Nat) : Int) * dRow := by
    rw [ecast]; ring
  have e2 : col + ((w : Int) - 1) * dCol + (o : Int) * -dCol =
      col + ((w - 1 - o : Nat) : Int) * dCol := by
    rw [ecast]; ring
  rw [e1, e2]
  exact hrev

/-- `flipH` read at an in-bounds `(cr, cc)` in `Int` coordinates. -/
theorem flipH_read (B : List Cell) (r c : Nat) (cr cc : Int)
    (h1 : 0 ≤ cr) (h2 : cr < (r : Int)) (h3 : 0 ≤ cc) (h4 : cc < (c : Int)) :
    (flipH B r c).getD (cr * (c : Int) + cc).toNat none =
      B.getD (cr * (c : Int) + ((c : Int) - 1 - cc)).toNat none := by
  obtain ⟨i, rfl⟩ : ∃ i : Nat, (i : Int) = cr := ⟨cr.toNat, Int.toNat_of_nonneg h1⟩
  obtain ⟨j, rfl⟩ : ∃ j : Nat, (j : Int) = cc := ⟨cc.toNat, Int.toNat_of_nonneg h3⟩
  have hi : i < r := by exact_mod_cast h2
  have hj : j < c := by exact_mod_cast h4
  have e1 : ((i : Int) * c + j).toNat = i * c + j := by
    rw [show ((i : Int) * c + j) = ((i * c + j : Nat) : Int) from by push_cast; ring,
      Int.toNat_natCast]
  have e2 : ((i : Int) * c + ((c : Int) - 1 - j)).toNat = i * c + (c - 1 - j) := by
    have hsub : ((c - 1 - j : Nat) : Int) = (c : Int) - 1 - j := by omega
    rw [show ((i : Int) * c + ((c : Int) - 1 - j)) = ((i * c + (c - 1 - j) : Nat) : Int) from by
      rw [Nat.cast_add, Nat.cast_mul, hsub], Int.toNat_natCast]
  rw [e1, e2, flipH_getD B r c i j hi hj]

/-- `flipV` read at an in-bounds `(cr, cc)` in `Int` coordinates. -/
theorem flipV_read (B : List Cell) (r c : Nat) (cr cc : Int)
    (h1 : 0 ≤ cr) (h2 : cr < (r : Int)) (h3 : 0 ≤ cc) (h4 : cc < (c : Int)) :
    (flipV B r c).getD (cr * (c : Int) + cc).toNat none =
      B.getD (((r : Int) - 1 - cr) * (c : Int) + cc).toNat none := by
  obtain ⟨i, rfl⟩ : ∃ i : Nat, (i : Int) = cr := ⟨cr.toNat, Int.toNat_of_nonneg h1⟩
  obtain ⟨j, rfl⟩ : ∃ j : Nat, (j : Int) = cc := ⟨cc.toNat, Int.toNat_of_nonneg h3⟩
  have hi : i < r := by exact_mod_cast h2
  have hj : j < c := by exact_mod_cast h4
  have e1 : ((i : Int) * c + j).toNat = i * c + j := by
    rw [show ((i : Int) * c + j) = ((i * c + j : Nat) : Int) from by push_cast; ring,
      Int.toNat_natCast]
  have e2 : (((r : Int) - 1 - i) * c + j).toNat = (r - 1 - i) * c + j := by
    have hsub : ((r - 1 - i : Nat) : Int) = (r : Int) - 1 - i := by omega
    rw [show (((r : Int) - 1 - i) * c + j) = (((r - 1 - i) * c + j : Nat) : Int) from by
      rw [Nat.cast_add, Nat.cast_mul, hsub], Int.toNat_natCast]
  rw [e1, e2, flipV_getD B r c i j hi hj]

/-- `transposeB` read at an in-bounds `(cr, cc)` of the `c × r` board in
`Int` coordinates. -/
theorem transposeB_read (B : List Cell) (r c : Nat) (cr cc : Int)
    (h1 : 0 ≤ cr) (h2 : cr < (c : Int)) (h3 : 0 ≤ cc) (h4 : cc < (r : Int)) :
    (transposeB B r c).getD (cr * (r : Int) + cc).toNat none =
      B.getD (cc * (c : Int) + cr).toNat none := by
  obtain ⟨i, rfl⟩ : ∃ i : Nat, (i : Int) = cr := ⟨cr.toNat, Int.toNat_of_nonneg h1⟩
  obtain ⟨j, rfl⟩ : ∃ j : Nat, (j : Int) = cc := ⟨cc.toNat, Int.toNat_of_nonneg h3⟩
  have hi : i < c := by exact_mod_cast h2
  have hj : j < r := by exact_mod_cast h4
  have e1 : ((i : Int) * r + j).toNat = i * r + j := by
    rw [show ((i : Int) * r + j) = ((i * r + j : Nat) : Int) from by push_cast; ring,
      Int.toNat_natCast]
  have e2 : ((j : Int) * c + i).toNat = j * c + i := by
    rw [show ((j : Int) * c + i) = ((j * c + i : Nat) : Int) from by push_cast; ring,
      Int.toNat_natCast]
  rw [e1, e2, transposeB_getD B r c i j hi hj]

/-- A direction probe on the horizontally flipped board is a probe on the
original board with the column mirrored and the column step negated. -/
theorem checkDirection_flipH_iff (B : List Cell) (r c w : Nat) (p : Mark)
    (row col dRow dCol : Int) :
    checkDirection (flipH B r c) row col dRow dCol w r c p = true ↔
    checkDirection B row ((c : Int) - 1 - col) dRow (-dCol) w r c p = true := by
  rw [checkDirection_spec, checkDirection_spec]
  have e : ∀ o : Nat, (c : Int) - 1 - col + (o : Int) * -dCol =
      (c : Int) - 1 - (col + (o : Int) * dCol) := fun o => by ring
  constructor
  · intro h o ho
    obtain ⟨hb, hcell⟩ := h o ho
    rw [e o]
    refine ⟨⟨hb.1, hb.2.1, by omega, by omega⟩, ?_⟩
    rw [flipH_read B r c _ _ hb.1 hb.2.1 hb.2.2.1 hb.2.2.2] at hcell
    exact hcell
  · intro h o ho
    obtain ⟨hb, hcell⟩ := h o ho
    rw [e o] at hb hcell
    have hb' : 0 ≤ col + (o : Int) * dCol ∧ col + (o : Int) * dCol < (c : Int) := by
      obtain ⟨_, _, hx, hy⟩ := hb
      omega
    refine ⟨⟨hb.1, hb.2.1, hb'.1, hb'.2⟩, ?_⟩
    rw [flipH_read B r c _ _ hb.1 hb.2.1 hb'.1 hb'.2]
    exact hcell

/-- A direction probe on the vertically flipped board is a probe on the
original board with the row mirrored and the row step negated. -/
theorem checkDirection_flipV_iff (B : List Cell) (r c w : Nat) (p : Mark)
    (row col dRow dCol : Int) :
    checkDirection (flipV B r c) row col dRow dCol w r c p = true ↔
    checkDirection B ((r : Int) - 1 - row) col (-dRow) dCol w r c p = true := by
  rw [checkDirection_spec, checkDirection_spec]
  have e : ∀ o : Nat, (r : Int) - 1 - row + (o : Int) * -dRow =
      (r : Int) - 1 - (row + (o : Int) * dRow) := fun o => by ring
  constructor
  · intro h o ho
    obtain ⟨hb, hcell⟩ := h o ho
    rw [e o]
    refine ⟨⟨by omega, by omega, hb.2.2.1, hb.2.2.2⟩, ?_⟩
    rw [flipV_read B r c _ _ hb.1 hb.2.1 hb.2.2.1 hb.2.2.2] at hcell
    exact hcell
  · intro h o ho
    obtain ⟨hb, hcell⟩ := h o ho
    rw [e o] at hb hcell
    have hb' : 0 ≤ row + (o : Int) * dRow ∧ row + (o : Int) * dRow < (r : Int) := by
      obtain ⟨hx, hy, _, _⟩ := hb
      omega
    refine ⟨⟨hb'.1, hb'.2, hb.2.2.1, hb.2.2.2⟩, ?_⟩
    rw [flipV_read B r c _ _ hb'.1 hb'.2 hb.2.2.1 hb.2.2.2]
    exact hcell

/-- A direction probe on the transposed board is a probe on the original
board with row and column (and the two steps) swapped. -/
theorem checkDirection_transposeB_iff (B : List Cell) (r c w : Nat) (p : Mark)
    (row col dRow dCol : Int) :
    checkDirection (transposeB B r c) row col dRow dCol w c r p = true ↔
    checkDirection B col row dCol dRow w r c p = true := by
  rw [checkDirection_spec, checkDirection_spec]
  constructor
  · intro h o ho
    obtain ⟨hb, hcell⟩ := h o ho
    refine ⟨⟨hb.2.2.1, hb.2.2.2, hb.1, hb.2.1⟩, ?_⟩
    rw [transposeB_read B r c _ _ hb.1 hb.2.1 hb.2.2.1 hb.2.2.2] at hcell
    exact hcell
  · intro h o ho
    obtain ⟨hb, hcell⟩ := h o ho
    refine ⟨⟨hb.2.2.1, hb.2.2.2, hb.1, hb.2.1⟩, ?_⟩
    rw [transposeB_read B r c _ _ hb.2.2.1 hb.2.2.2 hb.1 hb.2.1]
    exact hcell

/-- `findSome?` finds something iff some element yields something. -/
theorem findSome?_isSome_iff (l : List α) (f : α → Option β) :
    (l.findSome? f).isSome = true ↔ ∃ a ∈ l, (f a).isSome = true := by
  induction l with
  | nil => simp [List.findSome?_nil]
  | cons a t ih =>
      rw [List.findSome?_cons]
      cases hfa : f a with
      | some b => simp [hfa]
      | none => simp [hfa, ih]

/-- Some cell starts a winning probe in one of the four scan directions. -/
def HasWin (B : List Cell) (r c w : Nat) : Prop :=
  ∃ i j p, i < r ∧ j < c ∧ B.getD (i * c + j) none = some p ∧
    (checkDirection B i j 0 1 w r c p = true ∨
     checkDirection B i j 1 0 w r c p = true ∨
     checkDirection B i j 1 1 w r c p = true ∨
     checkDirection B i j 1 (-1) w r c p = true)

/-- `calculateWinner` finds a winner exactly when a winning line exists. -/
theorem calculateWinner_isSome_iff (B : List Cell) (r c w : Nat) :
    (calculateWinner B r c w).isSome = true ↔ HasWin B r c w := by
  unfold calculateWinner HasWin
  rw [findSome?_isSome_iff]
  constructor
  · rintro ⟨row, hrowmem, hrow⟩
    rw [findSome?_isSome_iff] at hrow
    obtain ⟨col, hcolmem, hcol⟩ := hrow
    rw [List.mem_range] at hrowmem hcolmem
    cases hcell : B.getD (row * c + col) none with
    | none =>
        rw [hcell] at hcol
        simp at hcol
    | some p =>
        rw [hcell] at hcol
        have hcol' : (if (checkDirection B row col 0 1 w r c p
            || checkDirection B row col 1 0 w r c p
            || checkDirection B row col 1 1 w r c p
            || checkDirection B row col 1 (-1) w r c p) = true
            then some p else (none : Option Mark)).isSome = true := hcol
        by_cases hdir : (checkDirection B row col 0 1 w r c p
            || checkDirection B row col 1 0 w r c p
            || checkDirection B row col 1 1 w r c p
            || checkDirection B row col 1 (-1) w r c p) = true
        · refine ⟨row, col, p, hrowmem, hcolmem, hcell, ?_⟩
          simp only [Bool.or_eq_true] at hdir
          tauto
        · rw [if_neg hdir] at hcol'
          simp at hcol'
  · rintro ⟨i, j, p, hi, hj, hcell, hdir⟩
    refine ⟨i, List.mem_range.mpr hi, ?_⟩
    rw [findSome?_isSome_iff]
    refine ⟨j, List.mem_range.mpr hj, ?_⟩
    rw [hcell]
    have hor : (checkDirection B i j 0 1 w r c p
        || checkDirection B i j 1 0 w r c p
        || checkDirection B i j 1 1 w r c p
        || checkDirection B i j 1 (-1) w r c p) = true := by
      simp only [Bool.or_eq_true]
      tauto
    show (if (checkDirection B i j 0 1 w r c p
        || checkDirection B i j 1 0 w r c p
        || checkDirection B i j 1 1 w r c p
        || checkDirection B i j 1 (-1) w r c p) = true
        then some p else (none : Option Mark)).isSome = true
    rw [if_pos hor]
    rfl

/-- Argument-wise congruence for `checkDirection`. -/
theorem checkDirection_congr_args (B : List Cell)
    {row row' col col' dRow dRow' dCol dCol' : Int} (w r c : Nat) (p : Mark)
    (h1 : row = row') (h2 : col = col') (h3 : dRow = dRow') (h4 : dCol = dCol') :
    checkDirection B row col dRow dCol w r c p =
      checkDirection B row' col' dRow' dCol' w r c p := by
  rw [h1, h2, h3, h4]

/-- With win-length zero every probe is vacuously winning. -/
theorem checkDirection_zero (B : List Cell) (row col dRow dCol : Int)
    (r c : Nat) (p : Mark) :
    checkDirection B row col dRow dCol 0 r c p = true := rfl

/-- The endpoint (offset `w-1`) of a winning probe: in bounds and holding
the mark. -/
theorem checkDirection_endpoint (B : List Cell) (row col dRow dCol : Int)
    (w r c : Nat) (p : Mark) (hw : 1 ≤ w)
    (h : checkDirection B row col dRow dCol w r c p = true) :
    (0 ≤ row + ((w : Int) - 1) * dRow ∧ row + ((w : Int) - 1) * dRow < (r : Int) ∧
     0 ≤ col + ((w : Int) - 1) * dCol ∧ col + ((w : Int) - 1) * dCol < (c : Int)) ∧
    B.getD ((row + ((w : Int) - 1) * dRow) * (c : Int) +
      (col + ((w : Int) - 1) * dCol)).toNat none = some p := by
  have hx := (checkDirection_spec B row col dRow dCol w r c p).mp h (w - 1) (by omega)
  have ecast : ((w - 1 : Nat) : Int) = (w : Int) - 1 := by omega
  rw [ecast] at hx
  exact hx

/-- Rewriting a flat `Int` index into `Nat` row-major form. -/
theorem getD_toNat_eq (B : List Cell) (x y : Int) (i j : Nat) (c : Nat)
    (hx : x = (i : Int)) (hy : y = (j : Int)) :
    B.getD (x * (c : Int) + y).toNat none = B.getD (i * c + j) none := by
  subst hx
  subst hy
  rw [show ((i : Int) * c + j) = ((i * c + j : Nat) : Int) from by push_cast; ring,
    Int.toNat_natCast]

/-- A winning line survives horizontal reflection. -/
theorem hasWin_flipH (B : List Cell) (r c w : Nat) (h : HasWin B r c w) :
    HasWin (flipH B r c) r c w := by
  obtain ⟨i, j, p, hi, hj, hcell, hdir⟩ := h
  by_cases hw0 : w = 0
  · subst hw0
    refine ⟨i, c - 1 - j, p, hi, by omega, ?_, Or.inl (checkDirection_zero _ _ _ _ _ _ _ _)⟩
    rw [flipH_getD B r c i (c - 1 - j) hi (by omega),
      show c - 1 - (c - 1 - j) = j from by omega]
    exact hcell
  have hw : 1 ≤ w := by omega
  -- mirrored-origin cell, used by the three direct cases
  have hmirror : (flipH B r c).getD (i * c + (c - 1 - j)) none = some p := by
    rw [flipH_getD B r c i (c - 1 - j) hi (by omega),
      show c - 1 - (c - 1 - j) = j from by omega]
    exact hcell
  rcases hdir with h | h | h | h
  · -- horizontal: reverse the line from its endpoint, then mirror
    obtain ⟨⟨hb1, hb2, hb3, hb4⟩, hcellE⟩ :=
      checkDirection_endpoint B i j 0 1 w r c p hw h
    have hrev := checkDirection_reverse B i j 0 1 w r c p h
    have hjw : j + w - 1 < c := by omega
    refine ⟨i, c - 1 - (j + w - 1), p, hi, by omega, ?_, Or.inl ?_⟩
    · rw [flipH_getD B r c i (c - 1 - (j + w - 1)) hi (by omega),
        show c - 1 - (c - 1 - (j + w - 1)) = j + w - 1 from by omega]
      rw [getD_toNat_eq B _ _ i (j + w - 1) c (by omega) (by omega)] at hcellE
      exact hcellE
    · rw [checkDirection_flipH_iff]
      rw [checkDirection_congr_args B w r c p
        (show ((i : Nat) : Int) = (i : Int) + ((w : Int) - 1) * 0 from by ring)
        (show ((c : Int) - 1 - ((c - 1 - (j + w - 1) : Nat) : Int)) =
          (j : Int) + ((w : Int) - 1) * 1 from by omega)
        (show (0 : Int) = -0 from by ring)
        (show (-1 : Int) = -1 from rfl)]
      exact checkDirection_congr_args B w r c p rfl rfl rfl rfl ▸ hrev
  · -- vertical: direct, mirrored column
    refine ⟨i, c - 1 - j, p, hi, by omega, hmirror, Or.inr (Or.inl ?_)⟩
    rw [checkDirection_flipH_iff]
    rw [checkDirection_congr_args B w r c p
      (rfl : ((i : Nat) : Int) = (i : Int))
      (show ((c : Int) - 1 - ((c - 1 - j : Nat) : Int)) = (j : Int) from by omega)
      (rfl : (1 : Int) = 1)
      (show (-0 : Int) = 0 from by ring)]
    exact h
  · -- diag down-right becomes diag down-left at the mirrored column
    refine ⟨i, c - 1 - j, p, hi, by omega, hmirror, Or.inr (Or.inr (Or.inr ?_))⟩
    rw [checkDirection_flipH_iff]
    rw [checkDirection_congr_args B w r c p
      (rfl : ((i : Nat) : Int) = (i : Int))
      (show ((c : Int) - 1 - ((c - 1 - j : Nat) : Int)) = (j : Int) from by omega)
      (rfl : (1 : Int) = 1)
      (show (-(-1) : Int) = 1 from by ring)]
    exact h
  · -- diag down-left becomes diag down-right at the mirrored column
    refine ⟨i, c - 1 - j, p, hi, by omega, hmirror, Or.inr (Or.inr (Or.inl ?_))⟩
    rw [checkDirection_flipH_iff]
    rw [checkDirection_congr_args B w r c p
      (rfl : ((i : Nat) : Int) = (i : Int))
      (show ((c : Int) - 1 - ((c - 1 - j : Nat) : Int)) = (j : Int) from by omega)
      (rfl : (1 : Int) = 1)
      (show (-1 : Int) = -1 from rfl)]
    exact h

/-- A winning line survives vertical reflection. -/
theorem hasWin_flipV (B : List Cell) (r c w : Nat) (h : HasWin B r c w) :
    HasWin (flipV B r c) r c w := by
  obtain ⟨i, j, p, hi, hj, hcell, hdir⟩ := h
  have hmirror : (flipV B r c).getD ((r - 1 - i) * c + j) none = some p := by
    rw [flipV_getD B r c (r - 1 - i) j (by omega) hj,
      show r - 1 - (r - 1 - i) = i from by omega]
    exact hcell
  by_cases hw0 : w = 0
  · subst hw0
    exact ⟨r - 1 - i, j, p, by omega, hj, hmirror,
      Or.inl (checkDirection_zero _ _ _ _ _ _ _ _)⟩
  have hw : 1 ≤ w := by omega
  rcases hdir with h | h | h | h
  · -- horizontal: direct, mirrored row
    refine ⟨r - 1 - i, j, p, by omega, hj, hmirror, Or.inl ?_⟩
    rw [checkDirection_flipV_iff]
    rw [checkDirection_congr_args B w r c p
      (show ((r : Int) - 1 - ((r - 1 - i : Nat) : Int)) = (i : Int) from by omega)
      (rfl : ((j : Nat) : Int) = (j : Int))
      (show (-0 : Int) = 0 from by ring)
      (rfl : (1 : Int) = 1)]
    exact h
  · -- vertical: reverse the line from its endpoint, then mirror
    obtain ⟨⟨hb1, hb2, hb3, hb4⟩, hcellE⟩ :=
      checkDirection_endpoint B i j 1 0 w r c p hw h
    have hrev := checkDirection_reverse B i j 1 0 w r c p h
    have hiw : i + w - 1 < r := by omega
    refine ⟨r - 1 - (i + w - 1), j, p, by omega, hj, ?_, Or.inr (Or.inl ?_)⟩
    · rw [flipV_getD B r c (r - 1 - (i + w - 1)) j (by omega) hj,
        show r - 1 - (r - 1 - (i + w - 1)) = i + w - 1 from by omega]
      rw [getD_toNat_eq B _ _ (i + w - 1) j c (by omega) (by omega)] at hcellE
      exact hcellE
    · rw [checkDirection_flipV_iff]
      rw [checkDirection_congr_args B w r c p
        (show ((r : Int) - 1 - ((r - 1 - (i + w - 1) : Nat) : Int)) =
          (i : Int) + ((w : Int) - 1) * 1 from by omega)
        (show ((j : Nat) : Int) = (j : Int) + ((w : Int) - 1) * 0 from by ring)
        (rfl : (-1 : Int) = -1)
        (show (0 : Int) = -0 from by ring)]
      exact hrev
  · -- diag down-right: reverse, becoming diag down-left from the endpoint
    obtain ⟨⟨hb1, hb2, hb3, hb4⟩, hcellE⟩ :=
      checkDirection_endpoint B i j 1 1 w r c p hw h
    have hrev := checkDirection_reverse B i j 1 1 w r c p h
    have hiw : i + w - 1 < r := by omega
    have hjw : j + w - 1 < c := by omega
    refine ⟨r - 1 - (i + w - 1), j + w - 1, p, by omega, by omega, ?_,
      Or.inr (Or.inr (Or.inr ?_))⟩
    · rw [flipV_getD B r c (r - 1 - (i + w - 1)) (j + w - 1) (by omega) (by omega),
        show r - 1 - (r - 1 - (i + w - 1)) = i + w - 1 from by omega]
      rw [getD_toNat_eq B _ _ (i + w - 1) (j + w - 1) c (by omega) (by omega)] at hcellE
      exact hcellE
    · rw [checkDirection_flipV_iff]
      rw [checkDirection_congr_args B w r c p
        (show ((r : Int) - 1 - ((r - 1 - (i + w - 1) : Nat) : Int)) =
          (i : Int) + ((w : Int) - 1) * 1 from by omega)
        (show (((j + w - 1 : Nat)) : Int) = (j : Int) + ((w : Int) - 1) * 1 from by omega)
        (rfl : (-1 : Int) = -1)
        (show (-1 : Int) = -1 from rfl)]
      exact hrev
  · -- diag down-left: reverse, becoming diag down-right from the endpoint
    obtain ⟨⟨hb1, hb2, hb3, hb4⟩, hcellE⟩ :=
      checkDirection_endpoint B i j 1 (-1) w r c p hw h
    have hrev := checkDirection_reverse B i j 1 (-1) w r c p h
    have hiw : i + w - 1 < r := by omega
    have hjw : w - 1 ≤ j := by omega
    refine ⟨r - 1 - (i + w - 1), j - (w - 1), p, by omega, by omega, ?_,
      Or.inr (Or.inr (Or.inl ?_))⟩
    · rw [flipV_getD B r c (r - 1 - (i + w - 1)) (j - (w - 1)) (by omega) (by omega),
        show r - 1 - (r - 1 - (i + w - 1)) = i + w - 1 from by omega]
      rw [getD_toNat_eq B _ _ (i + w - 1) (j - (w - 1)) c (by omega) (by omega)] at hcellE
      exact hcellE
    · rw [checkDirection_flipV_iff]
      rw [checkDirection_congr_args B w r c p
        (show ((r : Int) - 1 - ((r - 1 - (i + w - 1) : Nat) : Int)) =
          (i : Int) + ((w : Int) - 1) * 1 from by omega)
        (show (((j - (w - 1) : Nat)) : Int) = (j : Int) + ((w : Int) - 1) * (-1) from by omega)
        (rfl : (-1 : Int) = -1)
        (show (1 : Int) = -(-1) from by ring)]
      exact hrev

/-- A winning line survives transposition (the board becomes `c × r`). -/
theorem hasWin_transposeB (B : List Cell) (r c w : Nat) (h : HasWin B r c w) :
    HasWin (transposeB B r c) c r w := by
  obtain ⟨i, j, p, hi, hj, hcell, hdir⟩ := h
  have hswap : (transposeB B r c).getD (j * r + i) none = some p := by
    rw [transposeB_getD B r c j i hj hi]
    exact hcell
  by_cases hw0 : w = 0
  · subst hw0
    exact ⟨j, i, p, hj, hi, hswap, Or.inl (checkDirection_zero _ _ _ _ _ _ _ _)⟩
  have hw : 1 ≤ w := by omega
  rcases hdir with h | h | h | h
  · -- horizontal becomes vertical
    refine ⟨j, i, p, hj, hi, hswap, Or.inr (Or.inl ?_)⟩
    rw [checkDirection_transposeB_iff]
    exact h
  · -- vertical becomes horizontal
    refine ⟨j, i, p, hj, hi, hswap, Or.inl ?_⟩
    rw [checkDirection_transposeB_iff]
    exact h
  · -- diag down-right stays diag down-right
    refine ⟨j, i, p, hj, hi, hswap, Or.inr (Or.inr (Or.inl ?_))⟩
    rw [checkDirection_transposeB_iff]
    exact h
  · -- diag down-left: reverse, then swap
    obtain ⟨⟨hb1, hb2, hb3, hb4⟩, hcellE⟩ :=
      checkDirection_endpoint B i j 1 (-1) w r c p hw h
    have hrev := checkDirection_reverse B i j 1 (-1) w r c p h
    have hiw : i + w - 1 < r := by omega
    have hjw : w - 1 ≤ j := by omega
    refine ⟨j - (w - 1), i + w - 1, p, by omega, by omega, ?_,
      Or.inr (Or.inr (Or.inr ?_))⟩
    · rw [transposeB_getD B r c (j - (w - 1)) (i + w - 1) (by omega) (by omega)]
      rw [getD_toNat_eq B _ _ (i + w - 1) (j - (w - 1)) c (by omega) (by omega)] at hcellE
      exact hcellE
    · rw [checkDirection_transposeB_iff]
      rw [checkDirection_congr_args B w r c p
        (show (((i + w - 1 : Nat)) : Int) = (i : Int) + ((w : Int) - 1) * 1 from by omega)
        (show (((j - (w - 1) : Nat)) : Int) = (j : Int) + ((w : Int) - 1) * (-1) from by omega)
        (rfl : (-1 : Int) = -1)
        (show (1 : Int) = -(-1) from by ring)]
      exact hrev

theorem flipH_length (B : List Cell) (r c : Nat) : (flipH B r c).length = r * c := by
  simp [flipH]

theorem flipV_length (B : List Cell) (r c : Nat) : (flipV B r c).length = r * c := by
  simp [flipV]

/-- Horizontal reflection is an involution on `r × c` boards. -/
theorem flipH_flipH (B : List Cell) (r c : Nat) (hlen : B.length = r * c) :
    flipH (flipH B r c) r c = B := by
  apply List.ext_getElem
  · rw [flipH_length, hlen]
  intro n h1 h2
  have hn : n < r * c := by rw [flipH_length] at h1; exact h1
  have hc : 0 < c := by
    rcases Nat.eq_zero_or_pos c with h | h
    · subst h; simp at hn
    · exact h
  have hdiv : n / c < r := (Nat.div_lt_iff_lt_mul hc).mpr hn
  have hmod : n % c < c := Nat.mod_lt n hc
  rw [show (flipH (flipH B r c) r c)[n] =
      (flipH (flipH B r c) r c).getD n none from
    (List.getD_eq_getElem _ none h1).symm]
  rw [flipH, getD_map_range _ _ _ _ hn]
  rw [flipH_getD B r c (n / c) (c - 1 - n % c) hdiv (by omega),
    show c - 1 - (c - 1 - n % c) = n % c from by omega,
    show n / c * c + n % c = n from by
      rw [Nat.mul_comm (n / c) c]; exact Nat.div_add_mod n c,
    List.getD_eq_getElem _ none h2]

/-- Vertical reflection is an involution on `r × c` boards. -/
theorem flipV_flipV (B : List Cell) (r c : Nat) (hlen : B.length = r * c) :
    flipV (flipV B r c) r c = B := by
  apply List.ext_getElem
  · rw [flipV_length, hlen]
  intro n h1 h2
  have hn : n < r * c := by rw [flipV_length] at h1; exact h1
  have hc : 0 < c := by
    rcases Nat.eq_zero_or_pos c with h | h
    · subst h; simp at hn
    · exact h
  have hdiv : n / c < r := (Nat.div_lt_iff_lt_mul hc).mpr hn
  have hmod : n % c < c := Nat.mod_lt n hc
  rw [show (flipV (flipV B r c) r c)[n] =
      (flipV (flipV B r c) r c).getD n none from
    (List.getD_eq_getElem _ none h1).symm]
  have hgen : ∀ q : Nat, q < r → r - 1 - q < r ∧ r - 1 - (r - 1 - q) = q := by
    intro q hq
    omega
  rw [flipV, getD_map_range _ _ _ _ hn]
  rw [flipV_getD B r c (r - 1 - n / c) (n % c) (hgen (n / c) hdiv).1 hmod,
    (hgen (n / c) hdiv).2,
    show n / c * c + n % c = n from by
      rw [Nat.mul_comm (n / c) c]; exact Nat.div_add_mod n c,
    List.getD_eq_getElem _ none h2]

theorem transposeB_length (B : List Cell) (r c : Nat) :
    (transposeB B r c).length = c * r := by
  simp [transposeB]

/-- Transposition applied twice gives back the board. -/
theorem transposeB_transposeB (B : List Cell) (r c : Nat)
    (hlen : B.length = r * c) : transposeB (transposeB B r c) c r = B := by
  apply List.ext_getElem
  · rw [transposeB_length, hlen]
  intro n h1 h2
  have hn : n < r * c := by rw [transposeB_length] at h1; exact h1
  have hc : 0 < c := by
    rcases Nat.eq_zero_or_pos c with h | h
    · subst h; simp at hn
    · exact h
  have hdiv : n / c < r := (Nat.div_lt_iff_lt_mul hc).mpr hn
  have hmod : n % c < c := Nat.mod_lt n hc
  rw [show (transposeB (transposeB B r c) c r)[n] =
      (transposeB (transposeB B r c) c r).getD n none from
    (List.getD_eq_getElem _ none h1).symm]
  rw [transposeB, getD_map_range _ _ _ _ hn]
  rw [transposeB_getD B r c (n % c) (n / c) hmod hdiv,
    show n / c * c + n % c = n from by
      rw [Nat.mul_comm (n / c) c]; exact Nat.div_add_mod n c,
    List.getD_eq_getElem _ none h2]

/-- 180° rotation is the composition of the two reflections. -/
theorem rot180_eq_flipH_flipV (B : List Cell) (r c : Nat) :
    rot180 B r c = flipH (flipV B r c) r c := by
  unfold rot180 flipH
  apply List.map_congr_left
  intro idx hidx
  rw [List.mem_range] at hidx
  have hc : 0 < c := by
    rcases Nat.eq_zero_or_pos c with h | h
    · subst h; simp at hidx
    · exact h
  have hdiv : idx / c < r := (Nat.div_lt_iff_lt_mul hc).mpr hidx
  have hmod : idx % c < c := Nat.mod_lt idx hc
  have hgen : ∀ q : Nat, q < c → c - 1 - q < c := by
    intro q hq
    omega
  rw [flipV_getD B r c (idx / c) (c - 1 - idx % c) hdiv (hgen (idx % c) hmod)]

/-- C8 (amended): for every board of shape `r × c` and win-length
`w ≤ min(r, c)`, the *existence* of a winner is preserved by every
reflection or rotation that preserves the grid shape: the two reflections,
the 180° rotation, and transposition (hence, by composition, the four
diagonal reflections and quarter rotations on square grids).  The identity
of the returned winner need not be preserved when both players own winning
lines (see the counterexample), but a winning line remains winning. -/
theorem calculateWinner_symmetry_preserves_existence (B : List Cell)
    (r c w : Nat) (hlen : B.length = r * c) (_hw1 : w ≤ r) (_hw2 : w ≤ c) :
    (calculateWinner (flipH B r c) r c w).isSome = (calculateWinner B r c w).isSome ∧
    (calculateWinner (flipV B r c) r c w).isSome = (calculateWinner B r c w).isSome ∧
    (calculateWinner (rot180 B r c) r c w).isSome = (calculateWinner B r c w).isSome ∧
    (calculateWinner (transposeB B r c) c r w).isSome = (calculateWinner B r c w).isSome := by
  have key : ∀ b1 b2 : Bool, (b1 = true ↔ b2 = true) → b1 = b2 := by decide
  refine ⟨key _ _ ?_, key _ _ ?_, key _ _ ?_, key _ _ ?_⟩
  · rw [calculateWinner_isSome_iff, calculateWinner_isSome_iff]
    constructor
    · intro h
      have h2 := hasWin_flipH (flipH B r c) r c w h
      rw [flipH_flipH B r c hlen] at h2
      exact h2
    · exact hasWin_flipH B r c w
  · rw [calculateWinner_isSome_iff, calculateWinner_isSome_iff]
    constructor
    · intro h
      have h2 := hasWin_flipV (flipV B r c) r c w h
      rw [flipV_flipV B r c hlen] at h2
      exact h2
    · exact hasWin_flipV B r c w
  · rw [rot180_eq_flipH_flipV, calculateWinner_isSome_iff, calculateWinner_isSome_iff]
    constructor
    · intro h
      have h2 := hasWin_flipH (flipH (flipV B r c) r c) r c w h
      rw [flipH_flipH (flipV B r c) r c (flipV_length B r c)] at h2
      have h3 := hasWin_flipV (flipV B r c) r c w h2
      rw [flipV_flipV B r c hlen] at h3
      exact h3
    · intro h
      exact hasWin_flipH (flipV B r c) r c w (hasWin_flipV B r c w h)
  · rw [calculateWinner_isSome_iff, calculateWinner_isSome_iff]
    constructor
    · intro h
      have h2 := hasWin_transposeB (transposeB B r c) c r w h
      rw [transposeB_transposeB B r c hlen] at h2
      exact h2
    · exact hasWin_transposeB B r c w

/-- Witness for C8 (amended) on the two-winner 3×3 board with
win-length 3. -/
theorem calculateWinner_symmetry_preserves_existence_witness :
    (([some Mark.X, some Mark.X, some Mark.X,
       some Mark.O, some Mark.O, some Mark.O,
       none, none, none] : List Cell).length = 3 * 3 ∧ 3 ≤ 3 ∧ 3 ≤ 3) ∧
    ((calculateWinner (flipH [some Mark.X, some Mark.X, some Mark.X,
        some Mark.O, some Mark.O, some Mark.O, none, none, none] 3 3) 3 3 3).isSome =
      (calculateWinner [some Mark.X, some Mark.X, some Mark.X,
        some Mark.O, some Mark.O, some Mark.O, none, none, none] 3 3 3).isSome ∧
     (calculateWinner (flipV [some Mark.X, some Mark.X, some Mark.X,
        some Mark.O, some Mark.O, some Mark.O, none, none, none] 3 3) 3 3 3).isSome =
      (calculateWinner [some Mark.X, some Mark.X, some Mark.X,
        some Mark.O, some Mark.O, some Mark.O, none, none, none] 3 3 3).isSome ∧
     (calculateWinner (rot180 [some Mark.X, some Mark.X, some Mark.X,
        some Mark.O, some Mark.O, some Mark.O, none, none, none] 3 3) 3 3 3).isSome =
      (calculateWinner [some Mark.X, some Mark.X, some Mark.X,
        some Mark.O, some Mark.O, some Mark.O, none, none, none] 3 3 3).isSome ∧
     (calculateWinner (transposeB [some Mark.X, some Mark.X, some Mark.X,
        some Mark.O, some Mark.O, some Mark.O, none, none, none] 3 3) 3 3 3).isSome =
      (calculateWinner [some Mark.X, some Mark.X, some Mark.X,
        some Mark.O, some Mark.O, some Mark.O, none, none, none] 3 3 3).isSome) :=
  ⟨⟨by decide, by decide, by decide⟩,
   calculateWinner_symmetry_preserves_existence
     [some Mark.X, some Mark.X, some Mark.X,
      some Mark.O, some Mark.O, some Mark.O, none, none, none] 3 3 3
     (by decide) (by decide) (by decide)⟩
